import Mathlib

/-!
Verification of the yeelight screen-bar ambilight controller
(`src/yeelight_ambilight/main.py`) against its specification.

The Python program is shallowly embedded: pure functions become Lean
functions, Python `int` becomes `Int` (Python integers are unbounded),
Python floor division `//` becomes `Int.fdiv` (both floor), fallible
operations return `Except`, and the effectful pieces (sockets, the
worker loop) are modelled by explicit state passing with oracles that
decide the outcome of each external call.
-/

/-- Python exceptions that the embedded code can raise.
`zeroDivisionError` is what `//` raises on a zero divisor.
`samplingError` is Modelled from the spec: the spec's `SamplingError`
taxonomy entry; no such exception class exists anywhere in the code. -/
inductive PyError where
  | zeroDivisionError
  | samplingError
deriving DecidableEq

/-- Decidable equality for `Except`, for evaluating concrete runs. -/
instance {e a : Type} [DecidableEq e] [DecidableEq a] : DecidableEq (Except e a) := fun x y =>
  match x, y with
  | .error u, .error v =>
    if h : u = v then isTrue (by rw [h]) else isFalse (fun hh => h (by cases hh; rfl))
  | .error _, .ok _ => isFalse (fun hh => Except.noConfusion hh)
  | .ok _, .error _ => isFalse (fun hh => Except.noConfusion hh)
  | .ok u, .ok v =>
    if h : u = v then isTrue (by rw [h]) else isFalse (fun hh => h (by cases hh; rfl))

/-- Transport-level failures of the socket calls in `LampController`. -/
inductive NetErr where
  | connectRefused
  | sendFailed
deriving DecidableEq

/-- One element of a `CommandPayload.params` tuple: the code only ever
stores Python ints and strs there (`Iterable[int | str]`). -/
inductive Param where
  | int (n : Int)
  | str (s : String)
deriving DecidableEq

/-- The `CommandPayload` dataclass: fields `id`, `method`, `params`.
The fourth dataclass field `_next_id` is a class-level counter; reading
it on an instance yields the counter's current value, so serialization
takes that value as an extra argument rather than storing it here. -/
structure CommandPayload where
  id : Int
  method : String
  params : List Param
deriving DecidableEq

/-! ### Decimal rendering of integers (Python `str`/`json.dumps` of an int) -/

/-- The ASCII character of a decimal digit. -/
def digitChar (d : Nat) : Char :=
  Char.ofNat (48 + d)

/-- Fuelled most-significant-first decimal digit accumulator. -/
def natCharsFuel : Nat → Nat → List Char → List Char
  | 0, _, acc => acc
  | fuel+1, n, acc =>
    if n = 0 then acc else natCharsFuel fuel (n / 10) (digitChar (n % 10) :: acc)

/-- Decimal rendering of a natural number, as Python prints it. -/
def natChars (n : Nat) : List Char :=
  if n = 0 then ['0'] else natCharsFuel n n []

/-- Decimal rendering of an integer, as Python's `json.dumps` prints it. -/
def intChars (i : Int) : List Char :=
  if i < 0 then '-' :: natChars i.natAbs else natChars i.toNat

/-! ### JSON string escaping (`json.dumps` with the default `ensure_ascii=True`) -/

/-- Lower-case hexadecimal digit. -/
def hexDigitChar (n : Nat) : Char :=
  if n < 10 then Char.ofNat (48 + n) else Char.ofNat (87 + n)

/-- Four-digit lower-case hex rendering used by `\uXXXX` escapes. -/
def hex4 (n : Nat) : List Char :=
  [hexDigitChar (n / 4096 % 16), hexDigitChar (n / 256 % 16),
   hexDigitChar (n / 16 % 16), hexDigitChar (n % 16)]

/-- How `json.dumps` renders one character inside a JSON string:
short escapes for backslash, quote and the common control characters,
`\uXXXX` (with surrogate pairs beyond the BMP) for other characters
outside the printable ASCII range, and the character itself otherwise. -/
def escapeChar (c : Char) : List Char :=
  if c = '\\' then ['\\', '\\']
  else if c = '"' then ['\\', '"']
  else if c.toNat = 8 then ['\\', 'b']
  else if c.toNat = 9 then ['\\', 't']
  else if c.toNat = 10 then ['\\', 'n']
  else if c.toNat = 12 then ['\\', 'f']
  else if c.toNat = 13 then ['\\', 'r']
  else if c.toNat < 32 || 126 < c.toNat then
    if c.toNat < 65536 then '\\' :: 'u' :: hex4 c.toNat
    else '\\' :: 'u' :: hex4 (55296 + (c.toNat - 65536) / 1024) ++
         '\\' :: 'u' :: hex4 (56320 + (c.toNat - 65536) % 1024)
  else [c]

/-- `json.dumps` escaping of a whole string body. -/
def escapeChars : List Char → List Char
  | [] => []
  | c :: cs => escapeChar c ++ escapeChars cs

/-! ### Wire serialization: `CommandPayload.as_bytes` -/

/-- How `json.dumps` renders one `params` element. -/
def paramChars : Param → List Char
  | .int n => intChars n
  | .str s => '"' :: (escapeChars s.data ++ ['"'])

/-- Rendering of the second and later `params` elements, each preceded
by the default `json.dumps` item separator `", "`. -/
def paramsBodyTail : List Param → List Char
  | [] => []
  | p :: ps => ',' :: ' ' :: (paramChars p ++ paramsBodyTail ps)

/-- Rendering of the interior of the `params` JSON array. -/
def paramsBody : List Param → List Char
  | [] => []
  | p :: ps => paramChars p ++ paramsBodyTail ps

/-- The literal chunks of `json.dumps(asdict(self))` output with the
default separators `", "` and `": "`; `asdict` lists the dataclass
fields in declaration order: `id`, `method`, `params`, `_next_id`. -/
def litId : List Char := "\x7b\"id\": ".data

/-- Literal between the id value and the method string (with the
opening quote of the method string). -/
def litMethod : List Char := ", \"method\": \"".data

/-- Literal between the method string's closing quote and the opening
bracket of the params array. -/
def litParamsK : List Char := ", \"params\": [".data

/-- Literal between the params array and the `_next_id` value. -/
def litNextK : List Char := ", \"_next_id\": ".data

/-- Closing brace followed by the CRLF terminator appended by `as_bytes`. -/
def litEnd : List Char := "\x7d\r\n".data

/-- `CommandPayload.as_bytes`: the character sequence (all ASCII, hence
byte-for-byte the UTF-8 encoding) of `json.dumps(asdict(self)) + "\r\n"`.
`classNextId` is the value of the class attribute `CommandPayload._next_id`
at the moment of serialization, which `asdict` reads through `self`. -/
def as_bytes (c : CommandPayload) (classNextId : Int) : List Char :=
  litId ++ intChars c.id ++
  litMethod ++ escapeChars c.method.data ++ '"' ::
  (litParamsK ++ paramsBody c.params ++ ']' ::
   (litNextK ++ intChars classNextId ++ litEnd))

/-! ### Command construction: the `_next_id` counter and the two builders -/

/-- The initial value of the class attribute `CommandPayload._next_id`
(`default=-1` in the dataclass field declaration). -/
def initialNextId : Int := -1

/-- Constructing a `CommandPayload(method, params)`: `__new__` first
increments the class counter, then `__init__`'s `default_factory`
reads the incremented counter as the new instance's `id`.  Returns the
instance together with the updated counter. -/
def mkCommandPayload (method : String) (ps : List Param) (counter : Int) :
    CommandPayload × Int :=
  (⟨counter + 1, method, ps⟩, counter + 1)

/-- `CommandPayload.convert_rgb` (the `lru_cache` is a pure-function
cache with no observable effect): packs three channel values. -/
def convert_rgb (r g b : Int) : Int :=
  r * 65536 + g * 256 + b

/-- `CommandPayload.bg_set_rgb` with its default arguments
`effect="smooth"`, `duration=500` passed explicitly. -/
def bg_set_rgb (r g b : Int) (effect : String) (duration : Int)
    (counter : Int) : CommandPayload × Int :=
  mkCommandPayload "bg_set_rgb"
    [.int (convert_rgb r g b), .str effect, .int duration] counter

/-- `CommandPayload.bg_set_bright` with its default arguments passed
explicitly. -/
def bg_set_bright (value : Int) (effect : String) (duration : Int)
    (counter : Int) : CommandPayload × Int :=
  mkCommandPayload "bg_set_bright"
    [.int value, .str effect, .int duration] counter

/-- A request to one of the two class-method builders. -/
inductive BuildReq where
  | rgb (r g b : Int) (effect : String) (duration : Int)
  | bright (value : Int) (effect : String) (duration : Int)

/-- Dispatch one build request at the current counter value. -/
def buildOne : BuildReq → Int → CommandPayload × Int
  | .rgb r g b e d, c => bg_set_rgb r g b e d c
  | .bright v e d, c => bg_set_bright v e d c

/-- A sequence of payload constructions in one process, threading the
process-wide class counter through. -/
def runBuilders : List BuildReq → Int → List CommandPayload × Int
  | [], c => ([], c)
  | q :: qs, c =>
    let pc := buildOne q c
    let rest := runBuilders qs pc.2
    (pc.1 :: rest.1, rest.2)

/-! ### `ScreenController.calculate_average_rgb` -/

/-- The loop body of `calculate_average_rgb`: accumulate the three
channel sums over the `(count, (r, g, b))` entries; the per-color
`count` component is bound to `_` and ignored by the code. -/
def rgbSums (colors : List (Int × (Int × Int × Int))) : Int × Int × Int :=
  colors.foldl
    (fun acc c => (acc.1 + c.2.1, acc.2.1 + c.2.2.1, acc.2.2 + c.2.2.2))
    ((0 : Int), (0 : Int), (0 : Int))

/-- `ScreenController.calculate_average_rgb`.  `pixels_count` is
`len(colors)` — the number of distinct-color entries, not the number of
pixels.  Python's `//` is floor division (`Int.fdiv`) and raises
`ZeroDivisionError` when the divisor is `0`, hence the `Except`. -/
def calculate_average_rgb (colors : List (Int × (Int × Int × Int))) :
    Except PyError (Int × Int × Int) :=
  let pixels_count : Int := colors.length
  let sums := rgbSums colors
  if pixels_count = 0 then .error .zeroDivisionError
  else .ok (sums.1.fdiv pixels_count, sums.2.1.fdiv pixels_count,
            sums.2.2.fdiv pixels_count)

/-! ### `LampController.send` / `send_command` -/

/-- Oracle deciding the outcome of the two socket operations performed
by one `send_command` call: whether `tcp_socket.connect` raises,
whether `tcp_socket.send` raises, and, if not, how many bytes
`tcp_socket.send` reports as written. -/
structure SocketOutcome where
  connectFails : Bool
  sendFails : Bool
  sendReturns : Nat
deriving DecidableEq

/-- Observable trace of one `send_command` call: whether
`tcp_socket.close()` ran on the way out, which bytes were handed to
`tcp_socket.send`, and the call's result. -/
structure SendCommandTrace where
  socketClosed : Bool
  written : List Char
  result : Except NetErr Nat

/-- `LampController.send_command` through the `send()` context manager.
The context manager runs `connect` *before* entering its
`try/finally`, so a failing `connect` propagates without `close()`
ever running; once `yield` is reached, `close()` runs on every exit
path, including a raising `send`. -/
def send_command (payload : CommandPayload) (classNextId : Int)
    (o : SocketOutcome) : SendCommandTrace :=
  if o.connectFails then
    { socketClosed := false, written := [], result := .error .connectRefused }
  else if o.sendFails then
    { socketClosed := true, written := as_bytes payload classNextId,
      result := .error .sendFailed }
  else
    { socketClosed := true, written := as_bytes payload classNextId,
      result := .ok o.sendReturns }

/-! ### `Ambilight.__init__` and the `process` loop -/

/-- The fields of an `Ambilight` instance relevant to the loop. -/
structure AmbilightState where
  running : Bool
  refresh_rate : Int
deriving DecidableEq

/-- Observable trace of `Ambilight.__init__`: the payloads constructed
and handed to `send_command`, and either the initialized state plus
updated class counter, or the exception that propagated out of the
constructor. -/
structure InitTrace where
  sentCommands : List CommandPayload
  result : Except NetErr (AmbilightState × Int)

/-- `Ambilight.__init__`: sets `_running = False`, stores
`refresh_rate`, then calls `set_brightness(initial_brightness)`, which
builds one `bg_set_bright` payload and sends it; nothing catches a
failure of that send, so it propagates to the constructor's caller.
No color cycle can run before `start()` flips `_running`. -/
def ambilightInit (refresh_rate initial_brightness : Int) (counter : Int)
    (o : SocketOutcome) : InitTrace :=
  let pc := bg_set_bright initial_brightness "smooth" 500 counter
  let tr := send_command pc.1 pc.2 o
  match tr.result with
  | .error e => { sentCommands := [pc.1], result := .error e }
  | .ok _ =>
    { sentCommands := [pc.1],
      result := .ok ({ running := false, refresh_rate := refresh_rate }, pc.2) }

/-- Errors that can escape one cycle of `Ambilight.process`: a Python
error from `get_color` or a transport error from `send_command`. -/
inductive RunErr where
  | py (e : PyError)
  | net (e : NetErr)
deriving DecidableEq

/-- One iteration of the `while self._running` body of
`Ambilight.process` (timing and logging omitted: they cannot raise and
do not affect control flow): `get_color` reduces the cycle's
screenshot colors, then `send_set_color_command` dispatches; any
exception propagates out of the body, which contains no `try`. -/
def processCycle (screenOf : Nat → List (Int × (Int × Int × Int)))
    (sendOf : Nat → (Int × Int × Int) → Except NetErr Nat)
    (i : Nat) : Except RunErr Nat :=
  match calculate_average_rgb (screenOf i) with
  | .error e => .error (.py e)
  | .ok color =>
    match sendOf i color with
    | .error e => .error (.net e)
    | .ok n => .ok n

/-- The `while self._running` loop of `Ambilight.process`, starting at
cycle index `i`.  `fuel` is the number of cycles for which the
`_running` flag would still read true (an external `stop()` clears
it).  Returns the indices of the cycles whose bodies were entered and
the exception, if one escaped the loop: an exception raised inside a
cycle propagates out of `process` immediately, terminating the worker
thread, because no cycle's failure is caught. -/
def processRun (screenOf : Nat → List (Int × (Int × Int × Int)))
    (sendOf : Nat → (Int × Int × Int) → Except NetErr Nat) :
    Nat → Nat → List Nat × Option RunErr
  | 0, _ => ([], none)
  | fuel+1, i =>
    match processCycle screenOf sendOf i with
    | .error e => ([i], some e)
    | .ok _ =>
      let rest := processRun screenOf sendOf fuel (i + 1)
      (i :: rest.1, rest.2)

/-! ### Decoder for the emitted wire format

The repository never parses its own wire bytes (`json.loads` is never
called), so the decoder below is Modelled from the spec: the spec's
`decode` used in its round-trip property, instantiated for the exact
rendering `json.dumps` produces for these payloads. -/

/-- Is `c` an ASCII decimal digit? -/
def isDigitChar (c : Char) : Bool :=
  48 ≤ c.toNat && c.toNat ≤ 57

/-- Is the head of `cs` (if any) not a digit?  Used to delimit the
greedy integer parser. -/
def headNotDigit : List Char → Bool
  | [] => true
  | c :: _ => !isDigitChar c

/-- Greedily consume decimal digits, accumulating their value. -/
def parseNatAux : List Char → Nat → Nat × List Char
  | [], acc => (acc, [])
  | c :: cs, acc =>
    if isDigitChar c then parseNatAux cs (acc * 10 + (c.toNat - 48))
    else (acc, c :: cs)

/-- Parse a nonempty run of decimal digits. -/
def parseNat : List Char → Option (Nat × List Char)
  | [] => none
  | c :: cs => if isDigitChar c then some (parseNatAux (c :: cs) 0) else none

/-- Parse a JSON integer (optional leading minus sign). -/
def parseInt : List Char → Option (Int × List Char)
  | [] => none
  | c :: cs =>
    if c = '-' then (parseNat cs).map (fun p => (-(p.1 : Int), p.2))
    else (parseNat (c :: cs)).map (fun p => ((p.1 : Int), p.2))

/-- Consume an expected literal character sequence. -/
def dropLit : List Char → List Char → Option (List Char)
  | [], cs => some cs
  | _ :: _, [] => none
  | l :: ls, c :: cs => if c = l then dropLit ls cs else none

/-- Consume the body of a JSON string up to and including its closing
quote (no escape sequences occur in the strings this decoder is proved
against). -/
def parseStrChars : List Char → Option (List Char × List Char)
  | [] => none
  | c :: cs =>
    if c = '"' then some ([], cs)
    else (parseStrChars cs).map (fun p => (c :: p.1, p.2))

/-- Parse one `params` element: a string if it opens with a quote,
otherwise an integer. -/
def parseParam : List Char → Option (Param × List Char)
  | [] => none
  | c :: cs =>
    if c = '"' then (parseStrChars cs).map (fun p => (Param.str (String.mk p.1), p.2))
    else (parseInt (c :: cs)).map (fun p => (Param.int p.1, p.2))

/-- After one parsed element: either the closing bracket or a `", "`
separator followed by further elements.  `fuel` bounds the number of
remaining elements. -/
def parseParamsTail (fuel : Nat) (cs : List Char) :
    Option (List Param × List Char) :=
  match cs with
  | [] => none
  | c :: cs2 =>
    if c = ']' then some ([], cs2)
    else if c = ',' then
      match cs2 with
      | ' ' :: cs3 =>
        match fuel with
        | 0 => none
        | fuel2+1 =>
          (parseParam cs3).bind fun pc =>
            (parseParamsTail fuel2 pc.2).map fun qs => (pc.1 :: qs.1, qs.2)
      | _ => none
    else none

/-- Parse the elements of a JSON array whose opening bracket has
already been consumed. -/
def parseParamsStart (fuel : Nat) (cs : List Char) :
    Option (List Param × List Char) :=
  match cs with
  | [] => none
  | c :: cs2 =>
    if c = ']' then some ([], cs2)
    else
      (parseParam (c :: cs2)).bind fun pc =>
        (parseParamsTail fuel pc.2).map fun qs => (pc.1 :: qs.1, qs.2)

/-- Decode the wire bytes actually produced by `as_bytes`: a JSON
object with the four fields `id`, `method`, `params`, `_next_id` in
that order, terminated by CRLF. -/
def parsePayload (cs : List Char) : Option (Int × String × List Param × Int) :=
  (dropLit litId cs).bind fun cs1 =>
  (parseInt cs1).bind fun ic =>
  (dropLit litMethod ic.2).bind fun cs2 =>
  (parseStrChars cs2).bind fun mc =>
  (dropLit litParamsK mc.2).bind fun cs3 =>
  (parseParamsStart cs3.length cs3).bind fun pc =>
  (dropLit litNextK pc.2).bind fun cs4 =>
  (parseInt cs4).bind fun nc =>
  (dropLit litEnd nc.2).bind fun cs5 =>
  if cs5 = [] then some (ic.1, String.mk mc.1, pc.1, nc.1) else none

/-- Closing brace of the spec's claimed three-field object. -/
def litEnd3 : List Char := "\x7d\r\n".data

/-- Modelled from the spec: a decoder for the wire format the spec
claims `encode` produces — a JSON object whose fields are exactly
`id`, `method` and `params` (same rendering conventions), terminated
by CRLF. -/
def parsePayload3 (cs : List Char) : Option (Int × String × List Param) :=
  (dropLit litId cs).bind fun cs1 =>
  (parseInt cs1).bind fun ic =>
  (dropLit litMethod ic.2).bind fun cs2 =>
  (parseStrChars cs2).bind fun mc =>
  (dropLit litParamsK mc.2).bind fun cs3 =>
  (parseParamsStart cs3.length cs3).bind fun pc =>
  (dropLit litEnd3 pc.2).bind fun cs4 =>
  if cs4 = [] then some (ic.1, String.mk mc.1, pc.1) else none

/-! ### Safety predicates for the round-trip statement -/

/-- A character that `json.dumps` emits verbatim inside a string:
printable ASCII other than quote and backslash. -/
def safeChar (c : Char) : Bool :=
  (32 ≤ c.toNat && c.toNat ≤ 126) && (!(c == '"') && !(c == '\\'))

/-- A string that `json.dumps` emits verbatim (no escapes needed). -/
def safeString (s : String) : Bool :=
  s.data.all safeChar

/-- A `params` element whose rendering needs no string escapes. -/
def safeParam : Param → Bool
  | .int _ => true
  | .str s => safeString s

/-! ### Spec-claimed variants used to state divergences -/

/-- Modelled from the spec: `buildSetColor` "constrains r,g,b to
[0,255]" before packing; clamping into the closed range is the claimed
constraining step (the code has no such step). -/
def clamp255 (x : Int) : Int :=
  max 0 (min 255 x)

/-- Modelled from the spec: the claimed packed color of the constrained
channels. -/
def convert_rgb_constrained (r g b : Int) : Int :=
  clamp255 r * 65536 + clamp255 g * 256 + clamp255 b

/-! ### Lemmas: decimal rendering parses back -/

/-- Facts about digit characters, by exhaustive check on `d < 10`. -/
theorem digitChar_spec : ∀ d, d < 10 →
    isDigitChar (digitChar d) = true ∧ (digitChar d).toNat - 48 = d ∧
    digitChar d ≠ '-' ∧ digitChar d ≠ '"' ∧ digitChar d ≠ ']' ∧
    digitChar d ≠ ',' := by decide

/-- The most-significant-first digit list of `n`, with `0` rendered as
the single digit `0`. -/
def natDigits10 (n : Nat) : List Nat :=
  if n = 0 then [0] else (Nat.digits 10 n).reverse

theorem natCharsFuel_eq : ∀ (fuel n : Nat) (acc : List Char), n ≤ fuel →
    natCharsFuel fuel n acc = ((Nat.digits 10 n).reverse.map digitChar) ++ acc := by
  intro fuel
  induction fuel with
  | zero =>
    intro n acc h
    have h0 : n = 0 := by omega
    subst h0
    simp [natCharsFuel]
  | succ fuel ih =>
    intro n acc h
    by_cases h0 : n = 0
    · subst h0; simp [natCharsFuel]
    · have hdiv : n / 10 ≤ fuel := by
        have := Nat.div_lt_self (Nat.pos_of_ne_zero h0) (by norm_num : 1 < 10)
        omega
      simp only [natCharsFuel, if_neg h0]
      rw [ih (n / 10) _ hdiv,
        Nat.digits_def' (by norm_num : 1 < 10) (Nat.pos_of_ne_zero h0)]
      simp [List.append_assoc]

theorem natChars_eq (n : Nat) : natChars n = (natDigits10 n).map digitChar := by
  by_cases h0 : n = 0
  · subst h0; simp [natChars, natDigits10]; decide
  · rw [natChars, if_neg h0, natDigits10, if_neg h0,
      natCharsFuel_eq n n [] (le_refl n), List.append_nil]

theorem natDigits10_lt (n : Nat) : ∀ d ∈ natDigits10 n, d < 10 := by
  intro d hd
  rw [natDigits10] at hd
  by_cases h0 : n = 0
  · rw [if_pos h0] at hd; simp at hd; omega
  · rw [if_neg h0, List.mem_reverse] at hd
    exact Nat.digits_lt_base (by norm_num) hd

theorem natDigits10_ne_nil (n : Nat) : natDigits10 n ≠ [] := by
  rw [natDigits10]
  by_cases h0 : n = 0
  · rw [if_pos h0]; simp
  · rw [if_neg h0]
    simpa using Nat.digits_ne_nil_iff_ne_zero.mpr h0

theorem foldr_eq_ofDigits (L : List Nat) :
    List.foldr (fun d a => a * 10 + d) 0 L = Nat.ofDigits 10 L := by
  induction L with
  | nil => simp [Nat.ofDigits_nil]
  | cons d L ih => rw [List.foldr_cons, ih, Nat.ofDigits_cons]; ring

theorem natDigits10_val (n : Nat) :
    (natDigits10 n).foldl (fun a d => a * 10 + d) 0 = n := by
  rw [natDigits10]
  by_cases h0 : n = 0
  · rw [if_pos h0]; simp [h0]
  · rw [if_neg h0, List.foldl_reverse]
    have : (fun (x : Nat) (y : Nat) => (fun a d => a * 10 + d) y x) =
        (fun d a => a * 10 + d) := rfl
    rw [this, foldr_eq_ofDigits, Nat.ofDigits_digits]

theorem parseNatAux_digits : ∀ (ds : List Nat) (acc : Nat) (rest : List Char),
    (∀ d ∈ ds, d < 10) → headNotDigit rest = true →
    parseNatAux (ds.map digitChar ++ rest) acc =
      (ds.foldl (fun a d => a * 10 + d) acc, rest) := by
  intro ds
  induction ds with
  | nil =>
    intro acc rest _ hrest
    cases rest with
    | nil => simp [parseNatAux]
    | cons c cs =>
      simp only [headNotDigit, Bool.not_eq_true'] at hrest
      simp [parseNatAux, hrest]
  | cons d ds ih =>
    intro acc rest hds hrest
    have hd : d < 10 := hds d (by simp)
    obtain ⟨h1, h2, -⟩ := digitChar_spec d hd
    have step : parseNatAux (digitChar d :: (ds.map digitChar ++ rest)) acc =
        parseNatAux (ds.map digitChar ++ rest)
          (acc * 10 + ((digitChar d).toNat - 48)) := by
      simp [parseNatAux, h1]
    rw [List.map_cons, List.cons_append, step, h2,
      ih _ rest (fun x hx => hds x (by simp [hx])) hrest]
    simp

theorem parseNat_natChars (n : Nat) (rest : List Char)
    (hrest : headNotDigit rest = true) :
    parseNat (natChars n ++ rest) = some (n, rest) := by
  rw [natChars_eq]
  obtain ⟨d, ds, hds⟩ : ∃ d ds, natDigits10 n = d :: ds := by
    cases h : natDigits10 n with
    | nil => exact absurd h (natDigits10_ne_nil n)
    | cons d ds => exact ⟨d, ds, rfl⟩
  have hlt : ∀ x ∈ d :: ds, x < 10 := by rw [← hds]; exact natDigits10_lt n
  obtain ⟨h1, -, -⟩ := digitChar_spec d (hlt d (by simp))
  rw [hds]
  have start : parseNat (digitChar d :: (ds.map digitChar ++ rest)) =
      some (parseNatAux (digitChar d :: (ds.map digitChar ++ rest)) 0) := by
    simp [parseNat, h1]
  simp only [List.map_cons, List.cons_append]
  rw [start, show (digitChar d :: (ds.map digitChar ++ rest)) =
      ((d :: ds).map digitChar ++ rest) by simp]
  rw [parseNatAux_digits _ 0 rest hlt hrest, ← hds, natDigits10_val]

theorem parseInt_intChars (i : Int) (rest : List Char)
    (hrest : headNotDigit rest = true) :
    parseInt (intChars i ++ rest) = some (i, rest) := by
  rw [intChars]
  by_cases hneg : i < 0
  · rw [if_pos hneg, List.cons_append]
    have step : parseInt ('-' :: (natChars i.natAbs ++ rest)) =
        (parseNat (natChars i.natAbs ++ rest)).map
          (fun p => (-(p.1 : Int), p.2)) := by
      simp [parseInt]
    rw [step, parseNat_natChars _ _ hrest]
    simp only [Option.map_some']
    have habs : -((i.natAbs : Int)) = i := by omega
    rw [habs]
  · rw [if_neg hneg]
    obtain ⟨d, ds, hds⟩ : ∃ d ds, natDigits10 i.toNat = d :: ds := by
      cases h : natDigits10 i.toNat with
      | nil => exact absurd h (natDigits10_ne_nil _)
      | cons d ds => exact ⟨d, ds, rfl⟩
    have hd : d < 10 := natDigits10_lt _ d (by rw [hds]; simp)
    obtain ⟨-, -, h3, -⟩ := digitChar_spec d hd
    have hcons : natChars i.toNat ++ rest =
        digitChar d :: (ds.map digitChar ++ rest) := by
      rw [natChars_eq, hds]; simp
    have step : parseInt (digitChar d :: (ds.map digitChar ++ rest)) =
        (parseNat (digitChar d :: (ds.map digitChar ++ rest))).map
          (fun p => ((p.1 : Int), p.2)) := by
      simp [parseInt, h3]
    rw [hcons, step, ← hcons, parseNat_natChars _ _ hrest]
    simp only [Option.map_some']
    have hcast : ((i.toNat : Nat) : Int) = i := by omega
    rw [hcast]

/-! ### Lemmas: literals, strings and params parse back -/

theorem dropLit_append : ∀ (lit rest : List Char),
    dropLit lit (lit ++ rest) = some rest := by
  intro lit
  induction lit with
  | nil => intro rest; simp [dropLit]
  | cons l ls ih => intro rest; simp [dropLit, ih]

theorem parseStrChars_append : ∀ (s rest : List Char), '"' ∉ s →
    parseStrChars (s ++ '"' :: rest) = some (s, rest) := by
  intro s
  induction s with
  | nil => intro rest _; simp [parseStrChars]
  | cons c cs ih =>
    intro rest hq
    have hc : c ≠ '"' := fun h => hq (by simp [h])
    have hcs : '"' ∉ cs := fun h => hq (by simp [h])
    simp [parseStrChars, hc, ih rest hcs]

theorem escapeChar_safe (c : Char) (h : safeChar c = true) :
    escapeChar c = [c] := by
  simp only [safeChar, Bool.and_eq_true, Bool.not_eq_true', beq_eq_false_iff_ne,
    ne_eq, decide_eq_true_eq] at h
  obtain ⟨⟨h1, h2⟩, h3, h4⟩ := h
  rw [escapeChar, if_neg h4, if_neg h3, if_neg (by omega), if_neg (by omega),
    if_neg (by omega), if_neg (by omega), if_neg (by omega), if_neg (by simp; omega)]

theorem escapeChars_safe : ∀ (l : List Char), (∀ c ∈ l, safeChar c = true) →
    escapeChars l = l := by
  intro l
  induction l with
  | nil => intro _; rfl
  | cons c cs ih =>
    intro h
    rw [escapeChars, escapeChar_safe c (h c (by simp)),
      ih (fun x hx => h x (by simp [hx]))]
    rfl

theorem safeString_no_quote (s : String) (h : safeString s = true) :
    '"' ∉ s.data := by
  intro hq
  rw [safeString, List.all_eq_true] at h
  have := h '"' hq
  simp [safeChar] at this

/-- `headNotDigit` only inspects the head, so a nonempty prefix decides it. -/
theorem headNotDigit_append (l : List Char) (x : List Char)
    (hne : l ≠ []) (h : headNotDigit l = true) :
    headNotDigit (l ++ x) = true := by
  cases l with
  | nil => exact absurd rfl hne
  | cons c cs => simpa [headNotDigit] using h

/-- Every rendered param is nonempty, and its head is neither `]` nor
a digit-run terminator confusable character; concretely, the head is
`"` for strings and `-` or a digit for ints, never `]`. -/
theorem paramChars_head (p : Param) :
    ∃ c cs, paramChars p = c :: cs ∧ c ≠ ']' := by
  cases p with
  | str s => exact ⟨'"', _, rfl, by decide⟩
  | int n =>
    rw [paramChars, intChars]
    by_cases hneg : n < 0
    · rw [if_pos hneg]
      exact ⟨'-', _, rfl, by decide⟩
    · rw [if_neg hneg]
      obtain ⟨d, ds, hds⟩ : ∃ d ds, natDigits10 n.toNat = d :: ds := by
        cases h : natDigits10 n.toNat with
        | nil => exact absurd h (natDigits10_ne_nil _)
        | cons d ds => exact ⟨d, ds, rfl⟩
      obtain ⟨-, -, -, -, h5, -⟩ :=
        digitChar_spec d (natDigits10_lt _ d (by rw [hds]; simp))
      exact ⟨digitChar d, ds.map digitChar, by rw [natChars_eq, hds]; simp, h5⟩

theorem parseParam_append (p : Param) (rest : List Char)
    (hp : safeParam p = true) (hrest : headNotDigit rest = true) :
    parseParam (paramChars p ++ rest) = some (p, rest) := by
  cases p with
  | str s =>
    have hq : '"' ∉ s.data := safeString_no_quote s hp
    have hsafe : ∀ c ∈ s.data, safeChar c = true := by
      rw [safeParam, safeString, List.all_eq_true] at hp
      exact hp
    have hren : paramChars (.str s) ++ rest =
        '"' :: (s.data ++ '"' :: rest) := by
      rw [paramChars, escapeChars_safe s.data hsafe]
      simp
    rw [hren, parseParam, if_pos rfl, parseStrChars_append s.data rest hq]
    simp only [Option.map_some']
  | int n =>
    have hq : ∀ c cs, paramChars (Param.int n) = c :: cs → c ≠ '"' := by
      intro c cs h
      rw [paramChars, intChars] at h
      by_cases hneg : n < 0
      · rw [if_pos hneg] at h
        cases h
        decide
      · rw [if_neg hneg, natChars_eq] at h
        obtain ⟨d, ds, hds⟩ : ∃ d ds, natDigits10 n.toNat = d :: ds := by
          cases hh : natDigits10 n.toNat with
          | nil => exact absurd hh (natDigits10_ne_nil _)
          | cons d ds => exact ⟨d, ds, rfl⟩
        rw [hds] at h
        simp only [List.map_cons, List.cons.injEq] at h
        obtain ⟨-, -, -, h4, -⟩ :=
          digitChar_spec d (natDigits10_lt _ d (by rw [hds]; simp))
        exact h.1 ▸ h4
    obtain ⟨c, cs, hcs⟩ : ∃ c cs, paramChars (Param.int n) ++ rest = c :: cs := by
      obtain ⟨c, cs0, h, -⟩ := paramChars_head (Param.int n)
      exact ⟨c, cs0 ++ rest, by rw [h]; simp⟩
    obtain ⟨c0, cs0, h0, -⟩ := paramChars_head (Param.int n)
    have hc0 : c = c0 := by
      rw [h0] at hcs
      simp only [List.cons_append, List.cons.injEq] at hcs
      exact hcs.1.symm
    have hcq : c ≠ '"' := hc0 ▸ hq c0 cs0 h0
    rw [hcs, parseParam, if_neg hcq, ← hcs]
    rw [show paramChars (Param.int n) = intChars n from rfl,
      parseInt_intChars n rest hrest]
    rfl

theorem bodyTail_headNotDigit (ps : List Param) (rest : List Char) :
    headNotDigit (paramsBodyTail ps ++ ']' :: rest) = true := by
  cases ps with
  | nil => simp [paramsBodyTail, headNotDigit]; decide
  | cons p ps => simp [paramsBodyTail, headNotDigit]; decide

theorem parseParamsTail_append : ∀ (ps : List Param) (fuel : Nat) (rest : List Char),
    ps.length ≤ fuel → (∀ p ∈ ps, safeParam p = true) →
    parseParamsTail fuel (paramsBodyTail ps ++ ']' :: rest) = some (ps, rest) := by
  intro ps
  induction ps with
  | nil =>
    intro fuel rest _ _
    rw [paramsBodyTail, List.nil_append, parseParamsTail.eq_def]
    simp
  | cons p ps ih =>
    intro fuel rest hlen hsafe
    cases fuel with
    | zero => simp at hlen
    | succ f =>
      have hren : paramsBodyTail (p :: ps) ++ ']' :: rest =
          ',' :: ' ' :: (paramChars p ++ (paramsBodyTail ps ++ ']' :: rest)) := by
        rw [paramsBodyTail]; simp [List.append_assoc]
      rw [hren, parseParamsTail]
      simp only [if_neg (by decide : ¬(',' = ']')), if_pos rfl]
      rw [parseParam_append p _ (hsafe p (by simp)) (bodyTail_headNotDigit ps rest)]
      simp only [Option.some_bind]
      rw [ih f rest (by simpa using hlen) (fun x hx => hsafe x (by simp [hx]))]
      rfl

theorem parseParamsStart_append : ∀ (ps : List Param) (fuel : Nat) (rest : List Char),
    ps.length ≤ fuel → (∀ p ∈ ps, safeParam p = true) →
    parseParamsStart fuel (paramsBody ps ++ ']' :: rest) = some (ps, rest) := by
  intro ps fuel rest hlen hsafe
  cases ps with
  | nil => simp [paramsBody, parseParamsStart]
  | cons p ps =>
    have hren : paramsBody (p :: ps) ++ ']' :: rest =
        paramChars p ++ (paramsBodyTail ps ++ ']' :: rest) := by
      rw [paramsBody]; simp [List.append_assoc]
    obtain ⟨c, cs, hcs, hne⟩ := paramChars_head p
    have hren2 : paramsBody (p :: ps) ++ ']' :: rest =
        c :: (cs ++ (paramsBodyTail ps ++ ']' :: rest)) := by
      rw [hren, hcs]; simp
    rw [hren2, parseParamsStart]
    simp only [if_neg hne]
    rw [show c :: (cs ++ (paramsBodyTail ps ++ ']' :: rest)) =
        paramChars p ++ (paramsBodyTail ps ++ ']' :: rest) by rw [hcs]; simp]
    rw [parseParam_append p _ (hsafe p (by simp)) (bodyTail_headNotDigit ps rest)]
    simp only [Option.some_bind]
    rw [parseParamsTail_append ps fuel rest (by simp at hlen; omega)
      (fun x hx => hsafe x (by simp [hx]))]
    rfl

theorem paramChars_length (p : Param) : 1 ≤ (paramChars p).length := by
  obtain ⟨c, cs, h, -⟩ := paramChars_head p
  rw [h]; simp

theorem paramsBodyTail_length (ps : List Param) :
    ps.length ≤ (paramsBodyTail ps).length := by
  induction ps with
  | nil => simp [paramsBodyTail]
  | cons p ps ih => rw [paramsBodyTail]; simp; omega

theorem paramsBody_length (ps : List Param) :
    ps.length ≤ (paramsBody ps).length := by
  cases ps with
  | nil => simp [paramsBody]
  | cons p ps =>
    rw [paramsBody]
    have h1 := paramChars_length p
    have h2 := paramsBodyTail_length ps
    simp
    omega

theorem string_mk_data (s : String) : String.mk s.data = s := by
  cases s
  rfl

/-- The decoder applied to the exact wire bytes of `as_bytes` recovers
the payload's `id`, `method` and `params`, plus the serialized
`_next_id` counter value. -/
theorem parsePayload_as_bytes (c : CommandPayload) (nid : Int)
    (hm : safeString c.method = true)
    (hp : ∀ p ∈ c.params, safeParam p = true) :
    parsePayload (as_bytes c nid) = some (c.id, c.method, c.params, nid) := by
  have hM : escapeChars c.method.data = c.method.data := by
    rw [safeString, List.all_eq_true] at hm
    exact escapeChars_safe c.method.data hm
  have hform : as_bytes c nid =
      litId ++ (intChars c.id ++ (litMethod ++ (c.method.data ++ '"' ::
        (litParamsK ++ (paramsBody c.params ++ ']' ::
          (litNextK ++ (intChars nid ++ litEnd))))))) := by
    rw [as_bytes, hM]
    simp [List.append_assoc]
  rw [hform, parsePayload, dropLit_append]
  simp only [Option.some_bind]
  rw [parseInt_intChars c.id _
    (headNotDigit_append litMethod _ (by decide) (by decide))]
  simp only [Option.some_bind]
  rw [dropLit_append]
  simp only [Option.some_bind]
  rw [parseStrChars_append c.method.data _ (safeString_no_quote _ hm)]
  simp only [Option.some_bind]
  rw [dropLit_append]
  simp only [Option.some_bind]
  rw [parseParamsStart_append c.params _ _
    (by
      have h1 := paramsBody_length c.params
      simp
      omega) hp]
  simp only [Option.some_bind]
  rw [dropLit_append]
  simp only [Option.some_bind]
  rw [show intChars nid ++ litEnd = intChars nid ++ (litEnd ++ []) by simp]
  rw [parseInt_intChars nid _
    (headNotDigit_append litEnd _ (by decide) (by decide))]
  simp only [Option.some_bind]
  rw [dropLit_append]
  simp only [Option.some_bind, string_mk_data]
  simp

/-! ### Lemmas: the channel sums and the average -/

theorem rgbSums_foldl : ∀ (l : List (Int × (Int × Int × Int))) (a b c : Int),
    l.foldl (fun acc x => (acc.1 + x.2.1, acc.2.1 + x.2.2.1, acc.2.2 + x.2.2.2))
      (a, b, c) =
    (a + (l.map fun x => x.2.1).sum, b + (l.map fun x => x.2.2.1).sum,
     c + (l.map fun x => x.2.2.2).sum) := by
  intro l
  induction l with
  | nil => intro a b c; simp
  | cons x l ih =>
    intro a b c
    simp only [List.foldl_cons, ih, List.map_cons, List.sum_cons,
      Prod.mk.injEq]
    refine ⟨by ring, by ring, by ring⟩

theorem rgbSums_eq (l : List (Int × (Int × Int × Int))) :
    rgbSums l = ((l.map fun x => x.2.1).sum, (l.map fun x => x.2.2.1).sum,
      (l.map fun x => x.2.2.2).sum) := by
  rw [rgbSums, rgbSums_foldl]
  simp

/-- Closed form of `calculate_average_rgb` on nonempty input: the
unweighted channel sums floor-divided by the number of entries. -/
theorem calculate_average_rgb_eq (l : List (Int × (Int × Int × Int)))
    (h : l ≠ []) :
    calculate_average_rgb l = Except.ok
      (((l.map fun x : Int × (Int × Int × Int) => x.2.1).sum).fdiv l.length,
       ((l.map fun x : Int × (Int × Int × Int) => x.2.2.1).sum).fdiv l.length,
       ((l.map fun x : Int × (Int × Int × Int) => x.2.2.2).sum).fdiv l.length) := by
  have hlen : ((l.length : Int)) ≠ 0 := by
    have : l.length ≠ 0 := by simpa [List.length_eq_zero] using h
    omega
  simp only [calculate_average_rgb, rgbSums_eq, if_neg hlen]

theorem fdiv_le_255 {s L : Int} (hL : 0 < L) (hs : s ≤ 255 * L) :
    s.fdiv L ≤ 255 := by
  rw [Int.fdiv_eq_ediv _ (le_of_lt hL)]
  calc s / L ≤ (255 * L) / L := Int.ediv_le_ediv hL hs
  _ = 255 := Int.mul_ediv_cancel 255 (by omega)

theorem channel_sum_bounds (l : List (Int × (Int × Int × Int)))
    (f : Int × (Int × Int × Int) → Int)
    (h : ∀ x ∈ l, 0 ≤ f x ∧ f x ≤ 255) :
    0 ≤ (l.map f).sum ∧ (l.map f).sum ≤ 255 * (l.length : Int) := by
  constructor
  · apply List.sum_nonneg
    intro y hy
    obtain ⟨x, hx, rfl⟩ := List.mem_map.mp hy
    exact (h x hx).1
  · have hb := List.sum_le_card_nsmul (l.map f) 255 (by
      intro y hy
      obtain ⟨x, hx, rfl⟩ := List.mem_map.mp hy
      exact (h x hx).2)
    simpa [nsmul_eq_mul, mul_comm] using hb

/-! ### Lemmas: the identifier counter -/

theorem buildOne_spec (q : BuildReq) (c : Int) :
    (buildOne q c).1.id = c + 1 ∧ (buildOne q c).2 = c + 1 := by
  cases q <;> exact ⟨rfl, rfl⟩

theorem runBuilders_ids : ∀ (qs : List BuildReq) (c : Int),
    ((runBuilders qs c).1.map fun p => p.id) =
      (List.range qs.length).map (fun k : Nat => c + 1 + (k : Int)) := by
  intro qs
  induction qs with
  | nil => intro c; simp [runBuilders]
  | cons q qs ih =>
    intro c
    obtain ⟨h1, h2⟩ := buildOne_spec q c
    simp only [runBuilders, List.map_cons]
    rw [h1, h2, ih (c + 1), List.length_cons, List.range_succ_eq_map,
      List.map_cons, List.map_map]
    congr 1
    · simp
    · have hfun : ((fun k : Nat => c + 1 + (k : Int)) ∘ Nat.succ) =
          (fun k : Nat => c + 1 + 1 + (k : Int)) := by
        funext k
        simp [Function.comp]
        ring
      rw [hfun]

/-! ### Lemmas: the process loop -/

theorem processRun_error (screenOf : Nat → List (Int × (Int × Int × Int)))
    (sendOf : Nat → (Int × Int × Int) → Except NetErr Nat)
    (fuel i : Nat) (e : RunErr)
    (h : processCycle screenOf sendOf i = .error e) :
    processRun screenOf sendOf (fuel + 1) i = ([i], some e) := by
  simp only [processRun, h]

/-! ### Concrete fixtures used by witnesses and counterexamples -/

/-- A one-entry `getcolors` result: one pixel of color (10, 20, 30). -/
def demoScreen : Nat → List (Int × (Int × Int × Int)) :=
  fun _ => [(1, (10, 20, 30))]

/-- A transport mock whose `send` always raises. -/
def demoSendFail : Nat → (Int × Int × Int) → Except NetErr Nat :=
  fun _ _ => Except.error .sendFailed

/-- The first payload a fresh process builds with `bg_set_bright 80`. -/
def demoPayload : CommandPayload :=
  (bg_set_bright 80 "smooth" 500 initialNextId).1

/-! ### The claims -/

/-- Claim C1: the spec says `calculate_average_rgb` returns the
count-weighted mean of the channels, `(191, 0, 0)` on the mapping
`[(3, (255,0,0)), (1, (0,0,0))]`.  Evaluating the code at exactly that
input yields `(127, 0, 0)`: the code binds each entry's pixel count to
`_`, ignores it, and divides the channel sums by the number of
distinct-color entries (misnamed `pixels_count`), contradicting the
program's own stated purpose of tracking the average screen color. -/
theorem calculate_average_rgb_failing_input :
    calculate_average_rgb [(3, (255, 0, 0)), (1, (0, 0, 0))] =
      Except.ok (127, 0, 0) ∧
    ((127 : Int), (0 : Int), (0 : Int)) ≠ ((191 : Int), (0 : Int), (0 : Int)) :=
  ⟨by decide, by decide⟩

/-- Claim C2 counterexample: with a `send` mock that always raises and
the `_running` flag left true for two cycles, the loop enters only
cycle 0 and the error escapes; cycle 1 never attempts `send_command`,
so a failing cycle does prevent the subsequent cycle. -/
theorem process_failure_stops_loop_cex :
    processRun demoScreen demoSendFail 2 0 =
      ([0], some (.net .sendFailed)) ∧
    ¬ (1 ∈ (processRun demoScreen demoSendFail 2 0).1) :=
  ⟨by decide, by decide⟩

/-- Claim C2 (amended): the body of `Ambilight.process` contains no
`try`, so an exception raised inside one cycle propagates out of the
loop at once: however long `_running` would have stayed true, only the
failing cycle's index is entered and no subsequent cycle attempts
`send_command`. -/
theorem process_cycle_failure_terminates
    (screenOf : Nat → List (Int × (Int × Int × Int)))
    (sendOf : Nat → (Int × Int × Int) → Except NetErr Nat)
    (fuel i : Nat) (e : RunErr)
    (h : processCycle screenOf sendOf i = .error e) :
    processRun screenOf sendOf (fuel + 1) i = ([i], some e) :=
  processRun_error screenOf sendOf fuel i e h

/-- Claim C2 witness: the amended theorem applied to the concrete
failing mock, with the fuel that would have allowed a second cycle. -/
theorem process_cycle_failure_terminates_witness :
    processCycle demoScreen demoSendFail 0 = .error (.net .sendFailed) ∧
    processRun demoScreen demoSendFail 2 0 = ([0], some (.net .sendFailed)) :=
  ⟨by decide,
   process_cycle_failure_terminates demoScreen demoSendFail 1 0
     (.net .sendFailed) (by decide)⟩

/-- Claim C3 counterexample: the wire bytes of a concrete payload do
not decode as a JSON object with exactly the fields
`{id, method, params}` (the spec-shaped decoder rejects them), while
the four-field decoder shows the extra `_next_id` field that
`dataclasses.asdict` serializes. -/
theorem as_bytes_extra_field_cex :
    parsePayload3 (as_bytes demoPayload 0) = none ∧
    parsePayload (as_bytes demoPayload 0) =
      some (0, "bg_set_bright", [.int 80, .str "smooth", .int 500], 0) :=
  ⟨by decide, by decide⟩

/-- Claim C3 (amended): `as_bytes` serializes all four dataclass
fields `{id, method, params, _next_id}` as a JSON object followed by a
CRLF terminator, and decoding those bytes recovers the payload's
`{id, method, params}` (plus the serialized counter), for every
payload whose strings need no JSON escaping. -/
theorem as_bytes_roundtrip (c : CommandPayload) (nid : Int)
    (hm : safeString c.method = true)
    (hp : ∀ p ∈ c.params, safeParam p = true) :
    parsePayload (as_bytes c nid) = some (c.id, c.method, c.params, nid) ∧
    ∃ pre, as_bytes c nid = pre ++ ['\r', '\n'] := by
  refine ⟨parsePayload_as_bytes c nid hm hp, ?_⟩
  refine ⟨litId ++ intChars c.id ++
    litMethod ++ escapeChars c.method.data ++ '"' ::
    (litParamsK ++ paramsBody c.params ++ ']' ::
     (litNextK ++ intChars nid ++ ['\x7d'])), ?_⟩
  have hEnd : litEnd = ['\x7d', '\r', '\n'] := rfl
  rw [as_bytes, hEnd]
  simp [List.append_assoc]

/-- Claim C3 witness: the amended round trip at the concrete
brightness payload. -/
theorem as_bytes_roundtrip_witness :
    safeString "bg_set_bright" = true ∧
    (∀ p ∈ [Param.int 80, Param.str "smooth", Param.int 500],
      safeParam p = true) ∧
    (parsePayload (as_bytes demoPayload 0) =
      some (0, "bg_set_bright", [.int 80, .str "smooth", .int 500], 0) ∧
     ∃ pre, as_bytes demoPayload 0 = pre ++ ['\r', '\n']) :=
  ⟨by decide, by decide, as_bytes_roundtrip demoPayload 0 (by decide) (by decide)⟩

/-- Claim C4 counterexample: on the empty color-count mapping the code
performs the unguarded division by zero and raises
`ZeroDivisionError`; no `SamplingError` exists in the code, so the
claimed exception is not the one raised. -/
theorem calculate_average_rgb_empty_cex :
    calculate_average_rgb [] = Except.error PyError.zeroDivisionError ∧
    PyError.zeroDivisionError ≠ PyError.samplingError :=
  ⟨by decide, by decide⟩

/-- Claim C4 (amended): applying `calculate_average_rgb` to an empty
color-count mapping raises `ZeroDivisionError` — the division by zero
is not guarded and no `SamplingError` is defined. -/
theorem calculate_average_rgb_empty :
    calculate_average_rgb [] = Except.error PyError.zeroDivisionError := by
  decide

/-- Claim C5 counterexample: at `(r, g, b) = (256, 0, 0)` the code
packs the raw value `256*65536 = 16777216`, not the constrained
`255*65536 = 16711680` the claim requires, so `bg_set_rgb` does not
constrain its inputs to `[0, 255]`. -/
theorem bg_set_rgb_no_constrain_cex :
    (bg_set_rgb 256 0 0 "smooth" 500 initialNextId).1.params =
      [Param.int 16777216, Param.str "smooth", Param.int 500] ∧
    convert_rgb_constrained 256 0 0 = 16711680 ∧
    (16777216 : Int) ≠ 16711680 :=
  ⟨by decide, by decide, by decide⟩

/-- Claim C5 (amended): `bg_set_rgb` applies no constraining at all:
for every `(r, g, b)` it returns a Command with method `"bg_set_rgb"`
and parameter list `[r*65536 + g*256 + b, effect, duration]` (so in
particular for `(r, g, b)` already in `[0,255]^3` the packed parameter
is `r*65536 + g*256 + b`), and as a pure function it returns identical
output on identical inputs. -/
theorem bg_set_rgb_spec (r g b : Int) (effect : String) (duration c : Int) :
    bg_set_rgb r g b effect duration c =
      (⟨c + 1, "bg_set_rgb",
        [Param.int (r * 65536 + g * 256 + b), Param.str effect,
         Param.int duration]⟩, c + 1) :=
  rfl

/-- Claim C6: starting from the class counter's initial value `-1`,
any sequence of `N` constructions through the two builders assigns the
identifiers `0, 1, ..., N-1` in order: strictly increasing consecutive
integers with no gaps or repeats, the first ever assigned being 0. -/
theorem command_ids_consecutive (qs : List BuildReq) :
    ((runBuilders qs initialNextId).1.map fun p => p.id) =
      (List.range qs.length).map (fun k : Nat => (k : Int)) := by
  rw [runBuilders_ids]
  have hfun : (fun k : Nat => initialNextId + 1 + (k : Int)) =
      (fun k : Nat => (k : Int)) := by
    funext k
    simp [initialNextId]
  rw [hfun]

/-- Claim C7 counterexample: when `connect` raises, `send_command`
exits without ever running `close()` — the connection acquisition
happens before the context manager's `try/finally` — so the socket is
not released on that exit path. -/
theorem send_command_connect_fail_cex :
    (send_command demoPayload 0 ⟨true, false, 0⟩).socketClosed = false ∧
    (send_command demoPayload 0 ⟨true, false, 0⟩).result =
      Except.error NetErr.connectRefused :=
  ⟨rfl, rfl⟩

/-- Claim C7 (amended): each `send_command` call opens a fresh
connection; once `connect` has succeeded the socket is closed on every
exit path (including a raising `send`), the full encoded byte string
is handed to `send`, and on success the transport's reported byte
count is returned; but when `connect` itself raises, the socket is
left unclosed and the error propagates. -/
theorem send_command_spec (p : CommandPayload) (nid : Int) (o : SocketOutcome) :
    (send_command p nid o).socketClosed = !o.connectFails ∧
    (send_command p nid o).written =
      (if o.connectFails then [] else as_bytes p nid) ∧
    (send_command p nid o).result =
      (if o.connectFails then Except.error NetErr.connectRefused
       else if o.sendFails then Except.error NetErr.sendFailed
       else Except.ok o.sendReturns) := by
  rcases o with ⟨cf, sf, n⟩
  cases cf <;> cases sf <;> exact ⟨rfl, rfl, rfl⟩

/-- Claim C8: constructing `Ambilight` with `initial_brightness = 80`
issues exactly one command — a `bg_set_bright` with parameter list
`[80, "smooth", 500]` — before any color cycle can run (the returned
state still has `running = false`), and a transport failure of that
command propagates out of the constructor as the `Except.error`
result rather than being caught. -/
theorem ambilight_init_spec (rr c : Int) (o : SocketOutcome) :
    (ambilightInit rr 80 c o).sentCommands =
      [⟨c + 1, "bg_set_bright",
        [Param.int 80, Param.str "smooth", Param.int 500]⟩] ∧
    (ambilightInit rr 80 c o).result =
      (if o.connectFails then Except.error NetErr.connectRefused
       else if o.sendFails then Except.error NetErr.sendFailed
       else Except.ok ({ running := false, refresh_rate := rr }, c + 1)) := by
  rcases o with ⟨cf, sf, n⟩
  cases cf <;> cases sf <;> exact ⟨rfl, rfl⟩

/-- Claim C9: `calculate_average_rgb` never reads the count component
of its entries: two inputs with the same color triples in the same
order but arbitrary counts produce identical results. -/
theorem calculate_average_rgb_ignores_counts
    (l1 l2 : List (Int × (Int × Int × Int)))
    (h : l1.map Prod.snd = l2.map Prod.snd) :
    calculate_average_rgb l1 = calculate_average_rgb l2 := by
  have hlen : l1.length = l2.length := by
    have := congrArg List.length h
    simpa using this
  have hproj : ∀ (f : (Int × Int × Int) → Int) (l : List (Int × (Int × Int × Int))),
      l.map (fun x => f x.2) = (l.map Prod.snd).map f := by
    intro f l
    rw [List.map_map]
    rfl
  have hr : l1.map (fun x : Int × (Int × Int × Int) => x.2.1) =
      l2.map (fun x => x.2.1) := by
    rw [hproj (fun t => t.1) l1, hproj (fun t => t.1) l2, h]
  have hg : l1.map (fun x : Int × (Int × Int × Int) => x.2.2.1) =
      l2.map (fun x => x.2.2.1) := by
    rw [hproj (fun t => t.2.1) l1, hproj (fun t => t.2.1) l2, h]
  have hbb : l1.map (fun x : Int × (Int × Int × Int) => x.2.2.2) =
      l2.map (fun x => x.2.2.2) := by
    rw [hproj (fun t => t.2.2) l1, hproj (fun t => t.2.2) l2, h]
  simp only [calculate_average_rgb, rgbSums_eq, hlen, hr, hg, hbb]

/-- Claim C9 witness: same single color triple, counts 3 versus 7. -/
theorem calculate_average_rgb_ignores_counts_witness :
    ([((3 : Int), ((255 : Int), (0 : Int), (0 : Int)))].map Prod.snd =
      [((7 : Int), ((255 : Int), (0 : Int), (0 : Int)))].map Prod.snd) ∧
    calculate_average_rgb [(3, (255, 0, 0))] =
      calculate_average_rgb [(7, (255, 0, 0))] :=
  ⟨by decide, calculate_average_rgb_ignores_counts _ _ (by decide)⟩

/-- Claim C10: on any nonempty input whose channel values all lie in
`[0, 255]`, the average returned by `calculate_average_rgb` has all
three components in `[0, 255]`, so every color the loop dispatches is
a valid 8-bit-per-channel color. -/
theorem calculate_average_rgb_range (l : List (Int × (Int × Int × Int)))
    (hne : l ≠ [])
    (hb : ∀ x ∈ l, 0 ≤ x.2.1 ∧ x.2.1 ≤ 255 ∧ 0 ≤ x.2.2.1 ∧ x.2.2.1 ≤ 255 ∧
      0 ≤ x.2.2.2 ∧ x.2.2.2 ≤ 255) :
    ∃ r g b : Int, calculate_average_rgb l = Except.ok (r, g, b) ∧
      0 ≤ r ∧ r ≤ 255 ∧ 0 ≤ g ∧ g ≤ 255 ∧ 0 ≤ b ∧ b ≤ 255 := by
  have hL : (0 : Int) < l.length := by
    have : l.length ≠ 0 := by simpa [List.length_eq_zero] using hne
    omega
  obtain ⟨hr0, hr1⟩ := channel_sum_bounds l (fun x => x.2.1)
    (fun x hx => ⟨(hb x hx).1, (hb x hx).2.1⟩)
  obtain ⟨hg0, hg1⟩ := channel_sum_bounds l (fun x => x.2.2.1)
    (fun x hx => ⟨(hb x hx).2.2.1, (hb x hx).2.2.2.1⟩)
  obtain ⟨hb0, hb1⟩ := channel_sum_bounds l (fun x => x.2.2.2)
    (fun x hx => ⟨(hb x hx).2.2.2.2.1, (hb x hx).2.2.2.2.2⟩)
  refine ⟨_, _, _, calculate_average_rgb_eq l hne,
    Int.fdiv_nonneg hr0 (by omega), fdiv_le_255 hL hr1,
    Int.fdiv_nonneg hg0 (by omega), fdiv_le_255 hL hg1,
    Int.fdiv_nonneg hb0 (by omega), fdiv_le_255 hL hb1⟩

/-- Claim C10 witness: the range theorem at a concrete one-entry list. -/
theorem calculate_average_rgb_range_witness :
    (([((1 : Int), ((10 : Int), (20 : Int), (30 : Int)))] :
        List (Int × (Int × Int × Int))) ≠ []) ∧
    (∀ x ∈ ([((1 : Int), ((10 : Int), (20 : Int), (30 : Int)))] :
        List (Int × (Int × Int × Int))),
      0 ≤ x.2.1 ∧ x.2.1 ≤ 255 ∧ 0 ≤ x.2.2.1 ∧ x.2.2.1 ≤ 255 ∧
      0 ≤ x.2.2.2 ∧ x.2.2.2 ≤ 255) ∧
    (∃ r g b : Int,
      calculate_average_rgb [(1, (10, 20, 30))] = Except.ok (r, g, b) ∧
      0 ≤ r ∧ r ≤ 255 ∧ 0 ≤ g ∧ g ≤ 255 ∧ 0 ≤ b ∧ b ≤ 255) :=
  ⟨by decide, by decide, calculate_average_rgb_range _ (by decide) (by decide)⟩
